import Mathlib

/-!
Verification of the moltbook-api ranking-effect experiment subsystem.

This file gives a shallow embedding of the treatment-assignment and
delayed-nudge scheduling subsystem of the repository:

* `assignTreatment`, `applyNudge`, `cleanup` and the pending-nudge registry
  embed `src/services/ExperimentService.js`;
* the world-content scheduler (`startSched`, `runTicks`, `runSched`,
  `loadQueue`) embeds `src/services/WorldPostScheduler.js`
  (`load`, `start`, `publishNext`, `stop`, `getStatus`);
* `getResults` embeds the reporting query of `ExperimentService.getResults`,
  including the adjusted-score CASE expression and the
  `ORDER BY et.created_at ASC` clause (embedded as an insertion sort);
* the `experiment_treatments` table of the migration script (UNIQUE(post_id),
  nullable nudge columns) is embedded as the `Treatment` structure together
  with the uniqueness check in `assignTreatment`.

Timestamps are modelled as natural numbers, row ids as natural numbers
standing for UUIDs, and the PostgreSQL store as in-memory lists.  External
collaborators (VoteService, PostService) are modelled by explicit outcome
parameters: a call either raises (`Except.error`) or returns the
collaborator's effect.  A small-step relation `Step` captures the events of
the subsystem (treatment assignment, timer firing, passage of time, graceful
shutdown), and `Reachable` the states a single process can be in.
-/

/-- The three experimental arms (`treatments` array in
`ExperimentService.assignTreatment`). -/
inductive Arm where
  | nudge_up
  | nudge_down
  | control
deriving DecidableEq, Repr

/-- One row of the `experiment_treatments` table (migration script
`scripts/migrate-experiment-treatments.sql`): nudge columns are nullable,
`created_at` defaults to the insertion time. -/
structure Treatment where
  id : Nat
  experimentName : String
  experimentMode : String
  runId : Option Nat
  postId : Nat
  isWorldPost : Bool
  treatment : Arm
  nudgeDelayMinutes : Option Nat
  nudgeAppliedAt : Option Nat
  nudgeVoteId : Option Nat
  createdAt : Nat
deriving DecidableEq, Repr

/-- Vote target kinds (`target_type` column of the `votes` table). -/
inductive TargetType where
  | post
  | comment
deriving DecidableEq, Repr

/-- One row of the `votes` table, as read by the vote lookup in
`ExperimentService.applyNudge`. -/
structure Vote where
  id : Nat
  agentId : Nat
  targetId : Nat
  targetType : TargetType
deriving DecidableEq, Repr

/-- A `setTimeout` handle created by `assignTreatment`: a one-shot timer that
will invoke `applyNudge(treatmentId, postId, arm)` once due.  `fired` and
`cancelled` record whether the callback already ran or `clearTimeout` was
called on the handle. -/
structure NudgeTimer where
  treatmentId : Nat
  postId : Nat
  arm : Arm
  dueAt : Nat
  fired : Bool
  cancelled : Bool
deriving DecidableEq, Repr

/-- Process state of the experiment subsystem: the persisted tables
(`treatments`, `votes`), every timer ever created, and the in-memory
`pendingNudges` registry (the `Map` of `ExperimentService.js`, keyed by
treatment id). `now` is the current wall clock. -/
structure ExpState where
  now : Nat
  treatments : List Treatment
  votes : List Vote
  timers : List NudgeTimer
  pendingNudges : List Nat
deriving DecidableEq, Repr

/-- The `config.experiment` values used by the service, plus the
`nudgerAgentId` resolved by `ExperimentService.initialize`. -/
structure ExperimentConfig where
  name : String
  mode : String
  runId : Option Nat
  nudgeDelays : List Nat
  nudgerAgentId : Nat
deriving Repr

/-- Failures of the persistence insert in `assignTreatment`: a uniqueness
violation on `post_id` (surfaced as a conflict) or any other database
failure. -/
inductive ExpError where
  | conflict
  | dbError
deriving DecidableEq, Repr

/-- `treatments[Math.floor(Math.random() * treatments.length)]`: the random
draw is embedded as an arbitrary natural number reduced mod 3 and mapped over
the array `['nudge_up', 'nudge_down', 'control']`. -/
def armOfDraw (r : Nat) : Arm :=
  match r % 3 with
  | 0 => Arm.nudge_up
  | 1 => Arm.nudge_down
  | _ => Arm.control

/-- `delays[Math.floor(Math.random() * delays.length)]`: the draw is an
arbitrary natural reduced mod the list length; on an empty delay list the
JavaScript indexing yields `undefined`, embedded as `none`. -/
def pickDelay (delays : List Nat) (r : Nat) : Option Nat :=
  delays.get? (r % delays.length)

/-- `ExperimentService.assignTreatment(postId, isWorldPost)`.

Draws an arm and (if non-control) a delay, INSERTs one row into
`experiment_treatments` (failing with a conflict if a row for `postId`
already exists, per `UNIQUE(post_id)`; `dbFault` injects any other
persistence failure), and only after a successful insert registers the
`setTimeout` and stores its handle in `pendingNudges`.  Returns the
JavaScript return/throw outcome together with the post-call state. -/
def assignTreatment (cfg : ExperimentConfig) (st : ExpState)
    (newId postId : Nat) (isWorldPost : Bool) (armDraw delayDraw : Nat)
    (dbFault : Bool) : Except ExpError Treatment × ExpState :=
  let treatment := armOfDraw armDraw
  let nudgeDelayMinutes : Option Nat :=
    if treatment ≠ Arm.control then pickDelay cfg.nudgeDelays delayDraw else none
  if st.treatments.any (fun t => t.postId == postId) then
    (Except.error ExpError.conflict, st)
  else if dbFault then
    (Except.error ExpError.dbError, st)
  else
    let record : Treatment :=
      { id := newId, experimentName := cfg.name, experimentMode := cfg.mode,
        runId := cfg.runId, postId := postId, isWorldPost := isWorldPost,
        treatment := treatment, nudgeDelayMinutes := nudgeDelayMinutes,
        nudgeAppliedAt := none, nudgeVoteId := none, createdAt := st.now }
    let st1 := { st with treatments := st.treatments ++ [record] }
    if treatment ≠ Arm.control then
      let delayMs := nudgeDelayMinutes.getD 0 * 60 * 1000
      let timer : NudgeTimer :=
        { treatmentId := newId, postId := postId, arm := treatment,
          dueAt := st.now + delayMs, fired := false, cancelled := false }
      (Except.ok record,
       { st1 with timers := st1.timers ++ [timer],
                  pendingNudges := st1.pendingNudges ++ [newId] })
    else
      (Except.ok record, st1)

/-- `SELECT id FROM votes WHERE agent_id = $1 AND target_id = $2 AND
target_type = 'post'` via `queryOne` (first matching row or null). -/
def findNudgeVote (votes : List Vote) (agentId postId : Nat) : Option Vote :=
  votes.find? (fun v =>
    v.agentId == agentId && v.targetId == postId && v.targetType == TargetType.post)

/-- `vote?.id || null`: null when the lookup found nothing, and a falsy id
(0 in this numeric embedding of UUIDs) also collapses to null. -/
def voteIdOrNull (vote : Option Vote) : Option Nat :=
  match vote with
  | some v => if v.id = 0 then none else some v.id
  | none => none

/-- `ExperimentService.applyNudge(treatmentId, postId, treatment)`.

The cast through VoteService is an external collaborator call, embedded as
`voteOutcome`: either it raises, or it returns the votes table after the
call.  On a raise the surrounding try/catch logs and leaves every table
untouched (no retry).  Otherwise the vote is looked up and the UPDATE
`SET nudge_applied_at = NOW(), nudge_vote_id = $2 WHERE id = $1` runs — its
WHERE clause matches on the row id only. -/
def applyNudge (cfg : ExperimentConfig) (st : ExpState)
    (treatmentId postId : Nat) (treatment : Arm)
    (voteOutcome : Except Unit (List Vote)) : ExpState :=
  let castResult : Except Unit (List Vote) :=
    match treatment with
    | Arm.nudge_up => voteOutcome
    | Arm.nudge_down => voteOutcome
    | Arm.control => Except.ok st.votes
  match castResult with
  | Except.error _ => st
  | Except.ok votes' =>
    let vote := findNudgeVote votes' cfg.nudgerAgentId postId
    { st with
      votes := votes',
      treatments := st.treatments.map (fun t =>
        if t.id = treatmentId then
          { t with nudgeAppliedAt := some st.now, nudgeVoteId := voteIdOrNull vote }
        else t) }

/-- The body of the `setTimeout` callback registered by `assignTreatment`:
run `applyNudge` (whose own try/catch swallows failures), then delete the
registry entry — success or failure. -/
def fireNudgeTimer (cfg : ExperimentConfig) (st : ExpState) (tm : NudgeTimer)
    (voteOutcome : Except Unit (List Vote)) : ExpState :=
  let st1 := applyNudge cfg st tm.treatmentId tm.postId tm.arm voteOutcome
  { st1 with
    timers := st1.timers.map (fun x =>
      if x.treatmentId = tm.treatmentId then { x with fired := true } else x),
    pendingNudges := st1.pendingNudges.filter (fun i => i != tm.treatmentId) }

/-- `ExperimentService.cleanup()`: `clearTimeout` every handle held in
`pendingNudges`, then clear the registry. -/
def cleanup (st : ExpState) : ExpState :=
  { st with
    timers := st.timers.map (fun tm =>
      if tm.treatmentId ∈ st.pendingNudges then { tm with cancelled := true } else tm),
    pendingNudges := [] }

/-- Fresh process state: empty tables, empty registry, no timers. -/
def initState : ExpState :=
  { now := 0, treatments := [], votes := [], timers := [], pendingNudges := [] }

/-- Events of the experiment subsystem.  `assign` requires the generated row
id to be fresh (the database generates unique UUIDs); `fire` is the elapse of
a live timer at or after its due time; `tick` is the passage of time;
`shutdown` is the SIGTERM handler calling `ExperimentService.cleanup()`. -/
inductive Step (cfg : ExperimentConfig) : ExpState → ExpState → Prop where
  | assign (st : ExpState) (newId postId : Nat) (w : Bool) (armDraw delayDraw : Nat)
      (rec : Treatment) (st' : ExpState)
      (hfresh : ∀ t ∈ st.treatments, t.id ≠ newId)
      (hrun : assignTreatment cfg st newId postId w armDraw delayDraw false
        = (Except.ok rec, st')) :
      Step cfg st st'
  | fire (st : ExpState) (tm : NudgeTimer) (voteOutcome : Except Unit (List Vote))
      (hmem : tm ∈ st.timers) (hf : tm.fired = false) (hc : tm.cancelled = false)
      (hdue : tm.dueAt ≤ st.now) :
      Step cfg st (fireNudgeTimer cfg st tm voteOutcome)
  | tick (st : ExpState) (d : Nat) :
      Step cfg st { st with now := st.now + d }
  | shutdown (st : ExpState) :
      Step cfg st (cleanup st)

/-- States a single process run of the subsystem can reach. -/
inductive Reachable (cfg : ExperimentConfig) : ExpState → Prop where
  | init : Reachable cfg initState
  | step {s s' : ExpState} : Reachable cfg s → Step cfg s s' → Reachable cfg s'

/-- Passage of time only (the post-shutdown world: the process registers no
new work, simulated time may still advance). -/
inductive TimeOnly : ExpState → ExpState → Prop where
  | refl (s : ExpState) : TimeOnly s s
  | tick {s t : ExpState} (d : Nat) :
      TimeOnly s t → TimeOnly s { t with now := t.now + d }

/-- Some nudge timer can still fire: a created, unfired, uncancelled timer
whose due time has elapsed. -/
def FireEnabled (st : ExpState) : Prop :=
  ∃ tm ∈ st.timers, tm.fired = false ∧ tm.cancelled = false ∧ tm.dueAt ≤ st.now

/-- In-memory state of `WorldPostScheduler`: the loaded queue, the `published`
counter, whether the repeating `setInterval` timer is currently armed
(`this.timer !== null`), and the `running` flag. -/
structure SchedState (α : Type) where
  queue : List α
  published : Nat
  timerArmed : Bool
  running : Bool
deriving DecidableEq, Repr

/-- `WorldPostScheduler.publishNext()` on the success path: shift the head of
the queue, publish it (post creation + treatment assignment), increment
`published`.  Returns the published item, if any. -/
def publishNext {α : Type} (s : SchedState α) : SchedState α × Option α :=
  match s.queue with
  | [] => (s, none)
  | x :: rest =>
    ({ s with queue := rest, published := s.published + 1 }, some x)

/-- `WorldPostScheduler.stop()`: `running := false` and the interval timer is
cleared. -/
def stopSched {α : Type} (s : SchedState α) : SchedState α :=
  { s with running := false, timerArmed := false }

/-- `WorldPostScheduler.start()` up to the point the interval timer is armed:
with an empty queue it only warns and returns; otherwise it sets `running`,
publishes the first item synchronously (at time 0), and arms the repeating
timer only if items remain.  Returns the state together with the publish
events so far, each an item paired with its publication time. -/
def startSched {α : Type} (items : List α) : SchedState α × List (α × Nat) :=
  match items with
  | [] => ({ queue := [], published := 0, timerArmed := false, running := false }, [])
  | x :: rest =>
    let s1 : SchedState α :=
      { queue := rest, published := 1, timerArmed := false, running := true }
    if s1.queue.isEmpty then (s1, [(x, 0)])
    else ({ s1 with timerArmed := true }, [(x, 0)])

/-- The `setInterval` callback loop: while the timer is armed, tick `k`
(at time `k * T`) runs `publishNext` and, if the queue is now empty, calls
`stop()` — which clears the interval and ends the loop.  The loop consumes
one queue item per tick, so the queue length bounds the number of remaining
ticks and serves as fuel. -/
def runTicks {α : Type} (T : Nat) : Nat → SchedState α → Nat → SchedState α × List (α × Nat)
  | 0, s, _ => (s, [])
  | fuel + 1, s, k =>
    if s.timerArmed then
      match s.queue with
      | [] => (stopSched s, [])
      | x :: rest =>
        let s1 : SchedState α := { s with queue := rest, published := s.published + 1 }
        let s2 := if s1.queue.isEmpty then stopSched s1 else s1
        let res := runTicks T fuel s2 (k + 1)
        (res.1, (x, k * T) :: res.2)
    else (s, [])

/-- A complete scheduler run over a loaded queue with interval `T`: `start`,
then the interval loop from tick 1.  Produces the final state and the full
publish trace (item, time). -/
def runSched {α : Type} (items : List α) (T : Nat) : SchedState α × List (α × Nat) :=
  let r0 := startSched items
  let r1 := runTicks T r0.1.queue.length r0.1 1
  (r1.1, r0.2 ++ r1.2)

/-- Modelled from the spec: the intended publication schedule — item `i`
(0-based) is published at time `i * T`, the first immediately at time 0, each
subsequent one a fixed interval later. -/
def publicationSchedule {α : Type} : List α → Nat → Nat → List (α × Nat)
  | [], _, _ => []
  | x :: rest, k, T => (x, k * T) :: publicationSchedule rest (k + 1) T

/-- JSON values as produced by `JSON.parse` of a JSONL line. -/
inductive Json where
  | null : Json
  | bool (b : Bool) : Json
  | num (n : Int) : Json
  | str (s : String) : Json
  | arr (elems : List Json) : Json

/-- JavaScript truthiness of a parsed JSON value, as tested by
`.filter(Boolean)`: `null`, `false`, `0` and the empty string are falsy,
everything else (including arrays and objects) is truthy. -/
def jsTruthy : Json → Bool
  | Json.null => false
  | Json.bool b => b
  | Json.num n => n != 0
  | Json.str s => s != ""
  | Json.arr _ => true

/-- Split a character list on a separator character (the character-level body
of `content.split('\n')`). -/
def splitCharsOn (sep : Char) : List Char → List (List Char)
  | [] => [[]]
  | c :: cs =>
    let rest := splitCharsOn sep cs
    if c = sep then [] :: rest
    else
      match rest with
      | [] => [[c]]
      | r :: rs => (c :: r) :: rs

/-- `content.split('\n')`. -/
def splitLines (content : String) : List String :=
  (splitCharsOn '\n' content.data).map String.mk

/-- `String.prototype.trim()`: strip leading and trailing whitespace. -/
def jsTrim (s : String) : String :=
  String.mk (((s.data.dropWhile Char.isWhitespace).reverse.dropWhile
    Char.isWhitespace).reverse)

/-- `WorldPostScheduler.load()`: split the file content into lines, drop
blank/whitespace-only lines (`.filter(line => line.trim())`), `JSON.parse`
each kept line — a parse exception is logged as a warning and yields `null`
in place of the value — then `.filter(Boolean)` the results into the queue.
`parse` embeds `JSON.parse`: `none` is a thrown SyntaxError.  Returns the
queue together with the number of skip warnings emitted. -/
def loadQueue (parse : String → Option Json) (content : String) :
    List Json × Nat :=
  let lines := (splitLines content).filter (fun line => jsTrim line != "")
  let parsed := lines.map parse
  let warnings := (parsed.filter Option.isNone).length
  let queue := (parsed.map (fun o => o.getD Json.null)).filter jsTruthy
  (queue, warnings)

/-- One row of the `posts` table, as read by the reporting joins. -/
structure Post where
  id : Nat
  authorId : Nat
  title : String
  score : Int
  commentCount : Nat
  createdAt : Nat
deriving DecidableEq, Repr

/-- One row of the `agents` table (author names for the report). -/
structure Agent where
  id : Nat
  name : String
deriving DecidableEq, Repr

/-- One row of the `activity_log` table: an action type and the
`metadata->'post_ids'` set tested by the impression-count subquery. -/
structure ActivityEntry where
  actionType : String
  postIds : List Nat
deriving DecidableEq, Repr

/-- One row of the `ExperimentService.getResults` SELECT list. -/
structure ReportRow where
  treatmentId : Nat
  postId : Nat
  runId : Option Nat
  treatment : Arm
  isWorldPost : Bool
  nudgeDelayMinutes : Option Nat
  nudgeAppliedAt : Option Nat
  treatmentCreatedAt : Nat
  title : String
  finalScore : Int
  commentCount : Nat
  postCreatedAt : Nat
  authorName : String
  adjustedScore : Int
  organicVoteCount : Nat
  impressionCount : Nat
deriving DecidableEq, Repr

/-- The SELECT list of `getResults` for one joined (treatment, post, author)
triple: the adjusted-score CASE expression, the organic-vote-count subquery
(votes on the post excluding the nudger agent) and the impression-count
subquery (feed_impression activity entries whose post-id set contains this
post). -/
def mkReportRow (nudgerId : Nat) (votes : List Vote)
    (activity : List ActivityEntry) (t : Treatment) (p : Post) (a : Agent) :
    ReportRow :=
  { treatmentId := t.id, postId := t.postId, runId := t.runId,
    treatment := t.treatment, isWorldPost := t.isWorldPost,
    nudgeDelayMinutes := t.nudgeDelayMinutes,
    nudgeAppliedAt := t.nudgeAppliedAt, treatmentCreatedAt := t.createdAt,
    title := p.title, finalScore := p.score, commentCount := p.commentCount,
    postCreatedAt := p.createdAt, authorName := a.name,
    adjustedScore :=
      if t.treatment = Arm.nudge_up ∧ t.nudgeAppliedAt.isSome then p.score - 1
      else if t.treatment = Arm.nudge_down ∧ t.nudgeAppliedAt.isSome then p.score + 1
      else p.score,
    organicVoteCount := (votes.filter (fun v =>
      v.targetId == t.postId && v.targetType == TargetType.post
        && v.agentId != nudgerId)).length,
    impressionCount := (activity.filter (fun al =>
      al.actionType == "feed_impression" && al.postIds.contains t.postId)).length }

/-- The tables read by `getResults`. -/
structure Db where
  treatments : List Treatment
  posts : List Post
  agents : List Agent
  votes : List Vote
  activity : List ActivityEntry
deriving Repr

/-- Insert a row into a list sorted by ascending treatment creation time. -/
def insertByCreatedAt (r : ReportRow) : List ReportRow → List ReportRow
  | [] => [r]
  | x :: xs =>
    if r.treatmentCreatedAt ≤ x.treatmentCreatedAt then r :: x :: xs
    else x :: insertByCreatedAt r xs

/-- `ORDER BY et.created_at ASC`, embedded as an insertion sort. -/
def sortByCreatedAt : List ReportRow → List ReportRow
  | [] => []
  | x :: xs => insertByCreatedAt x (sortByCreatedAt xs)

/-- `ExperimentService.getResults({experimentName})`: filter treatments by
experiment name, inner-join each with its post and the post's author, build
the SELECT row, and order by treatment creation time ascending. -/
def getResults (nudgerId : Nat) (db : Db) (name : String) : List ReportRow :=
  sortByCreatedAt (db.treatments.filterMap (fun t =>
    if t.experimentName = name then
      (db.posts.find? (fun p => p.id == t.postId)).bind (fun p =>
        (db.agents.find? (fun a => a.id == p.authorId)).map (fun a =>
          mkReportRow nudgerId db.votes db.activity t p a))
    else none))

/-- A sample experiment configuration for concrete runs. -/
def cfg0 : ExperimentConfig :=
  { name := "exp", mode := "A", runId := none, nudgeDelays := [0, 2],
    nudgerAgentId := 99 }

/-- A control-arm treatment row for post 10. -/
def tCtl : Treatment :=
  { id := 1, experimentName := "exp", experimentMode := "A", runId := none,
    postId := 10, isWorldPost := false, treatment := Arm.control,
    nudgeDelayMinutes := none, nudgeAppliedAt := none, nudgeVoteId := none,
    createdAt := 0 }

/-- A state holding exactly the control assignment for post 10. -/
def stCtl : ExpState :=
  { now := 7, treatments := [tCtl], votes := [], timers := [],
    pendingNudges := [] }

/-- Characterization of a successful `assignTreatment`: the returned record
is freshly null on the nudge columns, the treatments table grows by exactly
that row, and a timer plus registry entry appear exactly when the arm is
non-control. -/
theorem assignTreatment_ok_shape
    (cfg : ExperimentConfig) (st : ExpState) (newId postId : Nat) (w : Bool)
    (armDraw delayDraw : Nat) (rec : Treatment) (st' : ExpState)
    (h : assignTreatment cfg st newId postId w armDraw delayDraw false
      = (Except.ok rec, st')) :
    rec.id = newId ∧ rec.treatment = armOfDraw armDraw ∧
    rec.nudgeAppliedAt = none ∧ rec.nudgeVoteId = none ∧
    (rec.treatment = Arm.control → rec.nudgeDelayMinutes = none) ∧
    st'.now = st.now ∧ st'.votes = st.votes ∧
    st'.treatments = st.treatments ++ [rec] ∧
    (rec.treatment = Arm.control →
      st'.timers = st.timers ∧ st'.pendingNudges = st.pendingNudges) ∧
    (rec.treatment ≠ Arm.control →
      ∃ d : Nat, st'.timers = st.timers ++
          [{ treatmentId := newId, postId := postId, arm := rec.treatment,
             dueAt := d, fired := false, cancelled := false }] ∧
        st'.pendingNudges = st.pendingNudges ++ [newId]) := by
  by_cases hdup : st.treatments.any (fun x => x.postId == postId) = true
  · simp [assignTreatment, hdup] at h
  · by_cases harm : armOfDraw armDraw = Arm.control
    · simp only [assignTreatment, hdup, Bool.false_eq_true, if_false, harm,
        ne_eq, not_true_eq_false, ite_false, ite_true, Prod.mk.injEq,
        Except.ok.injEq] at h
      obtain ⟨hrec, hst⟩ := h
      subst hst
      subst hrec
      refine ⟨rfl, harm.symm, rfl, rfl, fun _ => rfl, rfl, rfl, rfl,
        fun _ => ⟨rfl, rfl⟩, fun hc => absurd rfl hc⟩
    · simp only [assignTreatment, hdup, Bool.false_eq_true, if_false, harm,
        ne_eq, not_false_eq_true, ite_true, ite_false, Prod.mk.injEq,
        Except.ok.injEq] at h
      obtain ⟨hrec, hst⟩ := h
      subst hst
      subst hrec
      refine ⟨rfl, rfl, rfl, rfl, fun hc => absurd hc harm, rfl, rfl, rfl,
        fun hc => absurd hc harm, fun _ => ⟨st.now + (pickDelay cfg.nudgeDelays delayDraw).getD 0 * 60 * 1000, rfl, rfl⟩⟩

/-- `applyNudge` never touches the clock, the timers or the registry, and its
effect on the treatments table is a row-wise map that preserves the id, the
arm and the delay column of every row and leaves rows with a different id
entirely unchanged. -/
theorem applyNudge_shape (cfg : ExperimentConfig) (st : ExpState)
    (treatmentId postId : Nat) (arm : Arm) (vo : Except Unit (List Vote)) :
    (applyNudge cfg st treatmentId postId arm vo).now = st.now ∧
    (applyNudge cfg st treatmentId postId arm vo).timers = st.timers ∧
    (applyNudge cfg st treatmentId postId arm vo).pendingNudges
      = st.pendingNudges ∧
    ∃ g : Treatment → Treatment,
      (applyNudge cfg st treatmentId postId arm vo).treatments
        = st.treatments.map g ∧
      ∀ t : Treatment, (g t).id = t.id ∧ (g t).treatment = t.treatment ∧
        (g t).nudgeDelayMinutes = t.nudgeDelayMinutes ∧
        (t.id ≠ treatmentId → g t = t) := by
  simp only [applyNudge]
  cases arm <;> cases vo <;>
    first
      | exact ⟨rfl, rfl, rfl, id, (List.map_id _).symm,
          fun t => ⟨rfl, rfl, rfl, fun _ => rfl⟩⟩
      | (refine ⟨rfl, rfl, rfl,
          fun (t : Treatment) =>
            if t.id = treatmentId then
              { t with nudgeAppliedAt := some st.now,
                       nudgeVoteId := voteIdOrNull
                         (findNudgeVote _ cfg.nudgerAgentId postId) }
            else t,
          rfl, fun t => ?_⟩
         by_cases hid : t.id = treatmentId <;> simp [hid])

/-- Claim C3 (confirmed): a second `assignTreatment` call for a content id
that already has a treatment row fails with a conflict that propagates to
the caller (the function returns the thrown error, it neither swallows nor
retries), and the state — in particular the original assignment row — is
left unmodified. -/
theorem assignTreatment_double_assignment_conflict
    (cfg : ExperimentConfig) (st : ExpState) (newId postId : Nat) (w : Bool)
    (armDraw delayDraw : Nat) (dbFault : Bool) (t : Treatment)
    (hmem : t ∈ st.treatments) (hpid : t.postId = postId) :
    assignTreatment cfg st newId postId w armDraw delayDraw dbFault
      = (Except.error ExpError.conflict, st) := by
  have hany : st.treatments.any (fun x => x.postId == postId) = true :=
    List.any_eq_true.mpr ⟨t, hmem, by simp [hpid]⟩
  simp [assignTreatment, hany]

/-- Witness for C3: with an existing assignment for post 10, a second call
for post 10 is a conflict and the state is untouched. -/
theorem assignTreatment_double_assignment_conflict_witness :
    tCtl ∈ stCtl.treatments ∧ tCtl.postId = 10 ∧
    assignTreatment cfg0 stCtl 2 10 false 0 1 false
      = (Except.error ExpError.conflict, stCtl) :=
  ⟨by decide, by decide,
    assignTreatment_double_assignment_conflict cfg0 stCtl 2 10 false 0 1 false
      tCtl (by decide) (by decide)⟩

/-- Claim C4 (confirmed): whenever the persistence insert of
`assignTreatment` fails — conflict or any other database failure — the call
returns with the state unchanged: no timer is registered and no entry is
added to the pending-nudge registry, because scheduling happens strictly
after a successful write (persist-then-schedule). -/
theorem assignTreatment_failed_insert_schedules_nothing
    (cfg : ExperimentConfig) (st : ExpState) (newId postId : Nat) (w : Bool)
    (armDraw delayDraw : Nat) (dbFault : Bool) (e : ExpError) (st' : ExpState)
    (h : assignTreatment cfg st newId postId w armDraw delayDraw dbFault
      = (Except.error e, st')) :
    st' = st ∧ st'.timers = st.timers ∧ st'.pendingNudges = st.pendingNudges := by
  have hst : st' = st := by
    simp only [assignTreatment] at h
    split at h
    · exact ((Prod.mk.injEq _ _ _ _).mp h).2.symm
    · split at h
      · exact ((Prod.mk.injEq _ _ _ _).mp h).2.symm
      · split at h <;> exact absurd (congrArg Prod.fst h) (by simp)
  exact ⟨hst, by rw [hst], by rw [hst]⟩

/-- Witness for C4: a conflicting insert returns an error and leaves the
timer list and the registry exactly as they were (here: empty). -/
theorem assignTreatment_failed_insert_schedules_nothing_witness :
    (assignTreatment cfg0 stCtl 2 10 false 0 1 false).2 = stCtl ∧
    (assignTreatment cfg0 stCtl 2 10 false 0 1 false).2.timers = [] ∧
    (assignTreatment cfg0 stCtl 2 10 false 0 1 false).2.pendingNudges = [] := by
  have h := assignTreatment_failed_insert_schedules_nothing cfg0 stCtl 2 10
    false 0 1 false ExpError.conflict
    (assignTreatment cfg0 stCtl 2 10 false 0 1 false).2 rfl
  exact ⟨h.1, by rw [h.2.1]; decide, by rw [h.2.2]; decide⟩

/-- A nudge_up treatment row for post 10 whose nudge has already been applied
(at time 5, with vote 7). -/
def tApplied : Treatment :=
  { id := 1, experimentName := "exp", experimentMode := "A", runId := none,
    postId := 10, isWorldPost := false, treatment := Arm.nudge_up,
    nudgeDelayMinutes := some 0, nudgeAppliedAt := some 5,
    nudgeVoteId := some 7, createdAt := 0 }

/-- The nudger's recorded vote on post 10. -/
def vNudge : Vote := { id := 7, agentId := 99, targetId := 10, targetType := TargetType.post }

/-- A state at time 10 holding the already-applied assignment. -/
def stApplied : ExpState :=
  { now := 10, treatments := [tApplied], votes := [vNudge], timers := [],
    pendingNudges := [] }

/-- A successful (non-raising) `applyNudge` call rewrites every treatments
row whose id matches: `nudgeAppliedAt` becomes the current time and
`nudgeVoteId` the freshly looked-up vote, whatever the previous values. -/
theorem applyNudge_ok_updates_row
    (cfg : ExperimentConfig) (st : ExpState) (treatmentId postId : Nat)
    (arm : Arm) (votes' : List Vote) (t : Treatment)
    (harm : arm ≠ Arm.control) (hmem : t ∈ st.treatments)
    (hid : t.id = treatmentId) :
    { t with nudgeAppliedAt := some st.now,
             nudgeVoteId := voteIdOrNull
               (findNudgeVote votes' cfg.nudgerAgentId postId) }
      ∈ (applyNudge cfg st treatmentId postId arm (Except.ok votes')).treatments := by
  cases arm with
  | control => exact absurd rfl harm
  | nudge_up =>
      simp only [applyNudge]
      exact List.mem_map.mpr ⟨t, hmem, by simp [hid]⟩
  | nudge_down =>
      simp only [applyNudge]
      exact List.mem_map.mpr ⟨t, hmem, by simp [hid]⟩

/-- Counterexample to claim C1 as stated: for an assignment whose nudge has
already been applied (`nudgeAppliedAt = some 5`), a further invocation of
`applyNudge` does NOT leave `nudgeAppliedAt` unchanged — the UPDATE is
guarded only by the row id, so it overwrites the timestamp with the current
time. -/
theorem applyNudge_reinvocation_changes_applied_row :
    (applyNudge cfg0 stApplied 1 10 Arm.nudge_up
        (Except.ok stApplied.votes)).treatments.map
        (fun t => (t.nudgeAppliedAt, t.nudgeVoteId))
      ≠ stApplied.treatments.map (fun t => (t.nudgeAppliedAt, t.nudgeVoteId)) := by
  decide

/-- Claim C1 (corrected): the UPDATE run by `applyNudge` is guarded only by
the assignment id, not by the null state of `nudgeAppliedAt`: every
successful (non-raising) invocation sets `nudgeAppliedAt` to the current
time and `nudgeVoteId` to the freshly looked-up vote on every row with the
matching id, overwriting an already-applied nudge rather than leaving it
unchanged. -/
theorem applyNudge_update_guarded_only_by_id
    (cfg : ExperimentConfig) (st : ExpState) (treatmentId postId : Nat)
    (arm : Arm) (votes' : List Vote) (t : Treatment)
    (harm : arm ≠ Arm.control) (hmem : t ∈ st.treatments)
    (hid : t.id = treatmentId) :
    { t with nudgeAppliedAt := some st.now,
             nudgeVoteId := voteIdOrNull
               (findNudgeVote votes' cfg.nudgerAgentId postId) }
      ∈ (applyNudge cfg st treatmentId postId arm (Except.ok votes')).treatments :=
  applyNudge_ok_updates_row cfg st treatmentId postId arm votes' t harm hmem hid

/-- Witness for the corrected C1: re-invoking `applyNudge` on the
already-applied row rewrites it to the current clock value 10. -/
theorem applyNudge_update_guarded_only_by_id_witness :
    { tApplied with
        nudgeAppliedAt := some stApplied.now,
        nudgeVoteId := voteIdOrNull
          (findNudgeVote stApplied.votes cfg0.nudgerAgentId 10) }
      ∈ (applyNudge cfg0 stApplied 1 10 Arm.nudge_up
          (Except.ok stApplied.votes)).treatments :=
  applyNudge_update_guarded_only_by_id cfg0 stApplied 1 10 Arm.nudge_up
    stApplied.votes tApplied (by decide) (by decide) rfl

/-- A nudge_up treatment row for post 10 whose nudge has not been applied. -/
def tPending : Treatment :=
  { id := 2, experimentName := "exp", experimentMode := "A", runId := none,
    postId := 10, isWorldPost := false, treatment := Arm.nudge_up,
    nudgeDelayMinutes := some 0, nudgeAppliedAt := none, nudgeVoteId := none,
    createdAt := 0 }

/-- A state at time 3 holding the pending assignment and an empty votes
table. -/
def stPending : ExpState :=
  { now := 3, treatments := [tPending], votes := [], timers := [],
    pendingNudges := [] }

/-- Counterexample to claim C2 as stated: when the vote lookup for the
(nudger, contentId) pair finds no vote, the assignment row does NOT remain
in the nudge-never-applied state — the UPDATE still runs, setting
`nudgeAppliedAt` to the current time (with `nudgeVoteId` null). -/
theorem applyNudge_missing_vote_still_updates :
    findNudgeVote ([] : List Vote) cfg0.nudgerAgentId 10 = none ∧
    (applyNudge cfg0 stPending 2 10 Arm.nudge_up
        (Except.ok [])).treatments.map (fun t => t.nudgeAppliedAt)
      ≠ stPending.treatments.map (fun t => t.nudgeAppliedAt) := by
  decide

/-- Claim C2 (corrected): if the voting collaborator raises, the failure is
caught and logged, not retried, and the assignment row (indeed the whole
state) is unchanged — and after a failed timer callback the registry entry
is still removed, so nothing is re-queued.  A vote lookup that finds no
vote, however, is not a failure path: the update still runs, setting
`nudgeAppliedAt` to the current time and `nudgeVoteId` to null. -/
theorem applyNudge_failure_policy
    (cfg : ExperimentConfig) (st : ExpState) (treatmentId postId : Nat)
    (arm : Arm) (e : Unit) (votes' : List Vote) (t : Treatment)
    (tm : NudgeTimer) :
    (arm ≠ Arm.control →
      applyNudge cfg st treatmentId postId arm (Except.error e) = st) ∧
    (arm ≠ Arm.control →
      findNudgeVote votes' cfg.nudgerAgentId postId = none →
      t ∈ st.treatments → t.id = treatmentId →
      { t with nudgeAppliedAt := some st.now, nudgeVoteId := none }
        ∈ (applyNudge cfg st treatmentId postId arm
            (Except.ok votes')).treatments) ∧
    (fireNudgeTimer cfg st tm (Except.error e)).pendingNudges
      = st.pendingNudges.filter (fun i => i != tm.treatmentId) := by
  refine ⟨?_, ?_, ?_⟩
  · intro harm
    cases arm with
    | control => exact absurd rfl harm
    | nudge_up => rfl
    | nudge_down => rfl
  · intro harm hnone hmem hid
    have h := applyNudge_ok_updates_row cfg st treatmentId postId
      arm votes' t harm hmem hid
    rwa [hnone] at h
  · simp only [fireNudgeTimer]
    rw [(applyNudge_shape cfg st tm.treatmentId tm.postId tm.arm
      (Except.error e)).2.2.1]

/-- Witness for the corrected C2: a raising collaborator call leaves the
pending state untouched, while a successful call with a missing vote lookup
marks the row applied with a null vote id. -/
theorem applyNudge_failure_policy_witness :
    applyNudge cfg0 stPending 2 10 Arm.nudge_up (Except.error ()) = stPending ∧
    { tPending with nudgeAppliedAt := some stPending.now, nudgeVoteId := none }
      ∈ (applyNudge cfg0 stPending 2 10 Arm.nudge_up
          (Except.ok [])).treatments := by
  have h := applyNudge_failure_policy cfg0 stPending 2 10 Arm.nudge_up () []
    tPending ⟨0, 0, Arm.nudge_up, 0, false, false⟩
  exact ⟨h.1 (by decide), h.2.1 (by decide) rfl (by decide) rfl⟩

/-- Invariant: every control-arm row has all three nudge columns null. -/
def ControlNull (st : ExpState) : Prop :=
  ∀ t ∈ st.treatments, t.treatment = Arm.control →
    t.nudgeDelayMinutes = none ∧ t.nudgeAppliedAt = none ∧ t.nudgeVoteId = none

/-- Invariant: no timer ever points at a control-arm row. -/
def TimerTargets (st : ExpState) : Prop :=
  ∀ tm ∈ st.timers, ∀ t ∈ st.treatments,
    t.id = tm.treatmentId → t.treatment ≠ Arm.control

/-- Invariant: every timer points at some existing treatment row. -/
def TimerHasTreatment (st : ExpState) : Prop :=
  ∀ tm ∈ st.timers, ∃ t ∈ st.treatments, t.id = tm.treatmentId

/-- Invariant: every live (unfired, uncancelled) timer has its handle in the
pending-nudge registry. -/
def ActiveRegistered (st : ExpState) : Prop :=
  ∀ tm ∈ st.timers, tm.fired = false → tm.cancelled = false →
    tm.treatmentId ∈ st.pendingNudges

/-- The conjunction of the subsystem invariants. -/
def ExpInv (st : ExpState) : Prop :=
  ControlNull st ∧ TimerTargets st ∧ TimerHasTreatment st ∧ ActiveRegistered st

/-- The invariants hold in the fresh process state. -/
theorem Inv_init : ExpInv initState :=
  ⟨fun t ht => absurd ht (by simp [initState]),
   fun tm htm => absurd htm (by simp [initState]),
   fun tm htm => absurd htm (by simp [initState]),
   fun tm htm => absurd htm (by simp [initState])⟩

/-- Every step of the subsystem preserves the invariants. -/
theorem Inv_step (cfg : ExperimentConfig) (s s' : ExpState)
    (hInv : ExpInv s) (hstep : Step cfg s s') : ExpInv s' := by
  obtain ⟨hCN, hTT, hTH, hAR⟩ := hInv
  cases hstep with
  | assign newId postId w armDraw delayDraw rec st2 hfresh hrun =>
    obtain ⟨hid, harm, happ, hvote, hdelay, hnow, hvotes, htreat, hctl, hnc⟩ :=
      assignTreatment_ok_shape cfg _ newId postId w armDraw delayDraw rec s' hrun
    by_cases hc : rec.treatment = Arm.control
    · obtain ⟨htim, hpend⟩ := hctl hc
      refine ⟨?_, ?_, ?_, ?_⟩
      · intro t ht htc
        rw [htreat] at ht
        rcases List.mem_append.mp ht with h0 | h0
        · exact hCN t h0 htc
        · have ht2 := List.mem_singleton.mp h0
          subst ht2
          exact ⟨hdelay hc, happ, hvote⟩
      · intro tm htm t ht hteq
        rw [htim] at htm
        rw [htreat] at ht
        rcases List.mem_append.mp ht with h0 | h0
        · exact hTT tm htm t h0 hteq
        · have ht2 := List.mem_singleton.mp h0
          subst ht2
          obtain ⟨t0, ht0, ht0id⟩ := hTH tm htm
          exact absurd ((ht0id.trans hteq.symm).trans hid) (hfresh t0 ht0)
      · intro tm htm
        rw [htim] at htm
        obtain ⟨t0, ht0, ht0id⟩ := hTH tm htm
        exact ⟨t0, by rw [htreat]; exact List.mem_append_left _ ht0, ht0id⟩
      · intro tm htm hf hcc
        rw [htim] at htm
        rw [hpend]
        exact hAR tm htm hf hcc
    · obtain ⟨d, htim, hpend⟩ := hnc hc
      refine ⟨?_, ?_, ?_, ?_⟩
      · intro t ht htc
        rw [htreat] at ht
        rcases List.mem_append.mp ht with h0 | h0
        · exact hCN t h0 htc
        · have ht2 := List.mem_singleton.mp h0
          subst ht2
          exact absurd htc hc
      · intro tm htm t ht hteq
        rw [htim] at htm
        rw [htreat] at ht
        rcases List.mem_append.mp htm with hm0 | hm0
        · rcases List.mem_append.mp ht with h0 | h0
          · exact hTT tm hm0 t h0 hteq
          · have ht2 := List.mem_singleton.mp h0
            subst ht2
            exact hc
        · have hm2 := List.mem_singleton.mp hm0
          subst hm2
          rcases List.mem_append.mp ht with h0 | h0
          · exact absurd hteq (hfresh t h0)
          · have ht2 := List.mem_singleton.mp h0
            subst ht2
            exact hc
      · intro tm htm
        rw [htim] at htm
        rcases List.mem_append.mp htm with hm0 | hm0
        · obtain ⟨t0, ht0, ht0id⟩ := hTH tm hm0
          exact ⟨t0, by rw [htreat]; exact List.mem_append_left _ ht0, ht0id⟩
        · have hm2 := List.mem_singleton.mp hm0
          subst hm2
          refine ⟨rec, by rw [htreat]; exact List.mem_append_right _ (by simp), hid⟩
      · intro tm htm hf hcc
        rw [htim] at htm
        rw [hpend]
        rcases List.mem_append.mp htm with hm0 | hm0
        · exact List.mem_append_left _ (hAR tm hm0 hf hcc)
        · have hm2 := List.mem_singleton.mp hm0
          subst hm2
          exact List.mem_append_right _ (by simp)
  | fire tm vo hmem hf hcc hdue =>
    obtain ⟨hnow, htim, hpend, g, hmapg, hg⟩ :=
      applyNudge_shape cfg s tm.treatmentId tm.postId tm.arm vo
    refine ⟨?_, ?_, ?_, ?_⟩
    · intro t' ht' htc'
      simp only [fireNudgeTimer] at ht'
      rw [hmapg] at ht'
      obtain ⟨t, ht, rfl⟩ := List.mem_map.mp ht'
      obtain ⟨gid, gtreat, gdelay, gneq⟩ := hg t
      by_cases hidq : t.id = tm.treatmentId
      · exact absurd (gtreat.symm.trans htc') (hTT tm hmem t ht hidq)
      · rw [gneq hidq] at htc' ⊢
        exact hCN t ht htc'
    · intro tm' htm' t' ht' hteq
      simp only [fireNudgeTimer] at htm' ht'
      rw [htim] at htm'
      rw [hmapg] at ht'
      obtain ⟨tm0, htm0, rfl⟩ := List.mem_map.mp htm'
      obtain ⟨t, ht, rfl⟩ := List.mem_map.mp ht'
      obtain ⟨gid, gtreat, -, -⟩ := hg t
      have hmk : (if tm0.treatmentId = tm.treatmentId then
          { tm0 with fired := true } else tm0).treatmentId = tm0.treatmentId := by
        split <;> rfl
      rw [hmk] at hteq
      rw [gid] at hteq
      rw [gtreat]
      exact hTT tm0 htm0 t ht hteq
    · intro tm' htm'
      simp only [fireNudgeTimer] at htm' ⊢
      rw [htim] at htm'
      obtain ⟨tm0, htm0, rfl⟩ := List.mem_map.mp htm'
      obtain ⟨t, ht, htid⟩ := hTH tm0 htm0
      have hmk : (if tm0.treatmentId = tm.treatmentId then
          { tm0 with fired := true } else tm0).treatmentId = tm0.treatmentId := by
        split <;> rfl
      refine ⟨g t, ?_, ?_⟩
      · rw [hmapg]
        exact List.mem_map_of_mem g ht
      · rw [(hg t).1, hmk]
        exact htid
    · intro tm' htm' hf' hcc'
      simp only [fireNudgeTimer] at htm' hf' hcc' ⊢
      rw [htim] at htm'
      rw [hpend]
      obtain ⟨tm0, htm0, rfl⟩ := List.mem_map.mp htm'
      by_cases hq : tm0.treatmentId = tm.treatmentId
      · rw [if_pos hq] at hf'
        exact absurd hf' (by simp)
      · rw [if_neg hq] at hf' hcc' ⊢
        exact List.mem_filter.mpr ⟨hAR tm0 htm0 hf' hcc', by simpa using hq⟩
  | tick d =>
    exact ⟨hCN, hTT, hTH, hAR⟩
  | shutdown =>
    refine ⟨hCN, ?_, ?_, ?_⟩
    · intro tm' htm' t ht hteq
      simp only [cleanup] at htm'
      obtain ⟨tm0, htm0, rfl⟩ := List.mem_map.mp htm'
      have hmk : (if tm0.treatmentId ∈ s.pendingNudges then
          { tm0 with cancelled := true } else tm0).treatmentId = tm0.treatmentId := by
        split <;> rfl
      rw [hmk] at hteq
      exact hTT tm0 htm0 t ht hteq
    · intro tm' htm'
      simp only [cleanup] at htm'
      obtain ⟨tm0, htm0, rfl⟩ := List.mem_map.mp htm'
      obtain ⟨t, ht, htid⟩ := hTH tm0 htm0
      have hmk : (if tm0.treatmentId ∈ s.pendingNudges then
          { tm0 with cancelled := true } else tm0).treatmentId = tm0.treatmentId := by
        split <;> rfl
      exact ⟨t, ht, by rw [hmk]; exact htid⟩
    · intro tm' htm' hf' hcc'
      simp only [cleanup] at htm'
      obtain ⟨tm0, htm0, rfl⟩ := List.mem_map.mp htm'
      by_cases hq : tm0.treatmentId ∈ s.pendingNudges
      · rw [if_pos hq] at hcc'
        exact absurd hcc' (by simp)
      · rw [if_neg hq] at hf' hcc'
        exact absurd (hAR tm0 htm0 hf' hcc') hq

/-- The invariants hold in every reachable state. -/
theorem Inv_reachable (cfg : ExperimentConfig) (st : ExpState)
    (h : Reachable cfg st) : ExpInv st := by
  induction h with
  | init => exact Inv_init
  | step hr hs ih => exact Inv_step cfg _ _ ih hs

/-- Claim C5 (confirmed): a control-arm `assignTreatment` persists a null
`nudgeDelayMinutes` and schedules no timer (timers and registry are exactly
as before the call), and in every reachable state of the subsystem a
control-arm row still has `nudgeDelayMinutes`, `nudgeAppliedAt` and
`nudgeVoteId` all null — no operation ever sets them, since no timer ever
points at a control row. -/
theorem control_assignment_lifetime_null (cfg : ExperimentConfig)
    (newId postId : Nat) (w : Bool) (armDraw delayDraw : Nat)
    (stA stA' : ExpState) (rec : Treatment)
    (st : ExpState) (hreach : Reachable cfg st) :
    (armOfDraw armDraw = Arm.control →
      assignTreatment cfg stA newId postId w armDraw delayDraw false
        = (Except.ok rec, stA') →
      rec.nudgeDelayMinutes = none ∧ stA'.timers = stA.timers ∧
        stA'.pendingNudges = stA.pendingNudges) ∧
    (∀ t ∈ st.treatments, t.treatment = Arm.control →
      t.nudgeDelayMinutes = none ∧ t.nudgeAppliedAt = none ∧
        t.nudgeVoteId = none) ∧
    (∀ tm ∈ st.timers, ∀ t ∈ st.treatments,
      t.id = tm.treatmentId → t.treatment ≠ Arm.control) := by
  obtain ⟨hCN, hTT, hTH, hAR⟩ := Inv_reachable cfg st hreach
  refine ⟨?_, hCN, hTT⟩
  intro harm hrun
  obtain ⟨hid, harm2, happ, hvote, hdelay, hnow, hvotes, htreat, hctl, hnc⟩ :=
    assignTreatment_ok_shape cfg stA newId postId w armDraw delayDraw rec
      stA' hrun
  have hc : rec.treatment = Arm.control := harm2.trans harm
  exact ⟨hdelay hc, (hctl hc).1, (hctl hc).2⟩

/-- The control-arm record produced by the concrete run used in the C5
witness (arm draw 2 maps to control). -/
def recCtl : Treatment :=
  { id := 1, experimentName := "exp", experimentMode := "A", runId := none,
    postId := 10, isWorldPost := false, treatment := Arm.control,
    nudgeDelayMinutes := none, nudgeAppliedAt := none, nudgeVoteId := none,
    createdAt := 0 }

/-- The state after assigning `recCtl` in the fresh process state. -/
def stCtlReach : ExpState :=
  { now := 0, treatments := [recCtl], votes := [], timers := [],
    pendingNudges := [] }

/-- `stCtlReach` is reachable: one control assignment from the fresh state. -/
theorem stCtlReach_reachable : Reachable cfg0 stCtlReach :=
  Reachable.step Reachable.init
    (Step.assign initState 1 10 false 2 0 recCtl stCtlReach
      (by simp [initState]) rfl)

/-- Witness for C5 at a concrete reachable state with one control row. -/
theorem control_assignment_lifetime_null_witness :
    (recCtl.nudgeDelayMinutes = none ∧ stCtlReach.timers = initState.timers ∧
      stCtlReach.pendingNudges = initState.pendingNudges) ∧
    (recCtl.nudgeDelayMinutes = none ∧ recCtl.nudgeAppliedAt = none ∧
      recCtl.nudgeVoteId = none) := by
  have h := control_assignment_lifetime_null cfg0 1 10 false 2 0 initState
    stCtlReach recCtl stCtlReach stCtlReach_reachable
  exact ⟨h.1 (by decide) rfl, h.2.1 recCtl (by decide) (by decide)⟩

/-- Time-only evolution changes no component except the clock. -/
theorem TimeOnly_shape (s s' : ExpState) (h : TimeOnly s s') :
    s'.treatments = s.treatments ∧ s'.votes = s.votes ∧
    s'.timers = s.timers ∧ s'.pendingNudges = s.pendingNudges := by
  induction h with
  | refl => exact ⟨rfl, rfl, rfl, rfl⟩
  | tick d h ih => exact ih

/-- Claim C8 (confirmed): after `cleanup` runs in any reachable state, the
pending-nudge registry is empty, every timer ever created is either already
fired or cancelled, and however far time then advances no nudge timer can
fire any more. -/
theorem cleanup_cancels_everything (cfg : ExperimentConfig) (st st' : ExpState)
    (hreach : Reachable cfg st) (hpost : TimeOnly (cleanup st) st') :
    st'.pendingNudges = [] ∧
    (∀ tm ∈ st'.timers, tm.fired = true ∨ tm.cancelled = true) ∧
    ¬ FireEnabled st' := by
  obtain ⟨-, -, -, hAR⟩ := Inv_reachable cfg st hreach
  obtain ⟨ht, hv, hti, hp⟩ := TimeOnly_shape _ _ hpost
  have hpend : (cleanup st).pendingNudges = [] := rfl
  have htimers : ∀ tm ∈ (cleanup st).timers,
      tm.fired = true ∨ tm.cancelled = true := by
    intro tm htm
    simp only [cleanup] at htm
    obtain ⟨tm0, htm0, rfl⟩ := List.mem_map.mp htm
    by_cases hq : tm0.treatmentId ∈ st.pendingNudges
    · rw [if_pos hq]
      exact Or.inr rfl
    · rw [if_neg hq]
      by_cases hf : tm0.fired = true
      · exact Or.inl hf
      · by_cases hcc : tm0.cancelled = true
        · exact Or.inr hcc
        · exact absurd (hAR tm0 htm0 (by simpa using hf) (by simpa using hcc)) hq
  refine ⟨by rw [hp]; exact hpend, by rw [hti]; exact htimers, ?_⟩
  rintro ⟨tm, htm, hf, hcc, -⟩
  rw [hti] at htm
  rcases htimers tm htm with h1 | h1
  · exact absurd (hf.symm.trans h1) (by decide)
  · exact absurd (hcc.symm.trans h1) (by decide)

/-- The nudge_up record produced by the concrete run used in the C8 witness
(arm draw 0 maps to nudge_up, delay draw 0 picks the zero delay). -/
def recNudge : Treatment :=
  { id := 1, experimentName := "exp", experimentMode := "A", runId := none,
    postId := 10, isWorldPost := false, treatment := Arm.nudge_up,
    nudgeDelayMinutes := some 0, nudgeAppliedAt := none, nudgeVoteId := none,
    createdAt := 0 }

/-- The state after that nudge_up assignment: one live timer, one registry
entry. -/
def stNudgeReach : ExpState :=
  { now := 0, treatments := [recNudge], votes := [],
    timers := [{ treatmentId := 1, postId := 10, arm := Arm.nudge_up,
                 dueAt := 0, fired := false, cancelled := false }],
    pendingNudges := [1] }

/-- `stNudgeReach` is reachable: one nudge_up assignment from the fresh
state. -/
theorem stNudgeReach_reachable : Reachable cfg0 stNudgeReach :=
  Reachable.step Reachable.init
    (Step.assign initState 1 10 false 0 0 recNudge stNudgeReach
      (by simp [initState]) rfl)

/-- Witness for C8: shutting down the state with one live timer empties the
registry and disables firing for good. -/
theorem cleanup_cancels_everything_witness :
    (cleanup stNudgeReach).pendingNudges = [] ∧
    ¬ FireEnabled (cleanup stNudgeReach) := by
  have h := cleanup_cancels_everything cfg0 stNudgeReach (cleanup stNudgeReach)
    stNudgeReach_reachable (TimeOnly.refl _)
  exact ⟨h.1, h.2.2⟩

/-- Membership through `insertByCreatedAt` is membership in the original
list or being the inserted row. -/
theorem mem_insertByCreatedAt (r y : ReportRow) (l : List ReportRow) :
    y ∈ insertByCreatedAt r l ↔ y = r ∨ y ∈ l := by
  induction l with
  | nil => simp [insertByCreatedAt]
  | cons x xs ih =>
      simp only [insertByCreatedAt]
      split
      · simp [List.mem_cons]
      · simp only [List.mem_cons, ih]
        tauto

/-- Sorting does not change the rows of the report. -/
theorem mem_sortByCreatedAt (y : ReportRow) (l : List ReportRow) :
    y ∈ sortByCreatedAt l ↔ y ∈ l := by
  induction l with
  | nil => simp [sortByCreatedAt]
  | cons x xs ih =>
      simp only [sortByCreatedAt, mem_insertByCreatedAt, ih, List.mem_cons]

/-- Inserting into a sorted report keeps it sorted. -/
theorem pairwise_insertByCreatedAt (r : ReportRow) (l : List ReportRow)
    (h : List.Pairwise (fun a b => a.treatmentCreatedAt ≤ b.treatmentCreatedAt) l) :
    List.Pairwise (fun a b => a.treatmentCreatedAt ≤ b.treatmentCreatedAt)
      (insertByCreatedAt r l) := by
  induction l with
  | nil => simp [insertByCreatedAt]
  | cons x xs ih =>
      obtain ⟨hx, hxs⟩ := List.pairwise_cons.mp h
      simp only [insertByCreatedAt]
      split
      · rename_i hle
        refine List.pairwise_cons.mpr ⟨?_, h⟩
        intro b hb
        rcases List.mem_cons.mp hb with rfl | hb2
        · exact hle
        · exact le_trans hle (hx b hb2)
      · rename_i hgt
        refine List.pairwise_cons.mpr ⟨?_, ih hxs⟩
        intro b hb
        rcases (mem_insertByCreatedAt r b xs).mp hb with rfl | hb2
        · exact le_of_not_le hgt
        · exact hx b hb2

/-- The insertion sort produces a list sorted by ascending treatment
creation time. -/
theorem pairwise_sortByCreatedAt (l : List ReportRow) :
    List.Pairwise (fun a b => a.treatmentCreatedAt ≤ b.treatmentCreatedAt)
      (sortByCreatedAt l) := by
  induction l with
  | nil => simp [sortByCreatedAt]
  | cons x xs ih => exact pairwise_insertByCreatedAt x _ ih

/-- Claim C9 (confirmed): for every experiment name and every database
state, the list returned by `getResults` is ordered by assignment creation
time ascending. -/
theorem getResults_sorted_by_creation (nudgerId : Nat) (db : Db)
    (name : String) :
    List.Pairwise (fun a b => a.treatmentCreatedAt ≤ b.treatmentCreatedAt)
      (getResults nudgerId db name) :=
  pairwise_sortByCreatedAt _

/-- Claim C6 (confirmed): every report row has `adjustedScore` equal to the
current score minus 1 for an applied nudge_up, plus 1 for an applied
nudge_down, and unmodified for control or an unapplied nudge. -/
theorem getResults_adjusted_score (nudgerId : Nat) (db : Db) (name : String)
    (r : ReportRow) (hr : r ∈ getResults nudgerId db name) :
    (r.treatment = Arm.nudge_up → r.nudgeAppliedAt.isSome →
      r.adjustedScore = r.finalScore - 1) ∧
    (r.treatment = Arm.nudge_down → r.nudgeAppliedAt.isSome →
      r.adjustedScore = r.finalScore + 1) ∧
    ((r.treatment = Arm.control ∨ r.nudgeAppliedAt = none) →
      r.adjustedScore = r.finalScore) := by
  rw [getResults, mem_sortByCreatedAt] at hr
  obtain ⟨t, ht, hsome⟩ := List.mem_filterMap.mp hr
  split at hsome
  · obtain ⟨p, hp, hsome2⟩ := Option.bind_eq_some.mp hsome
    obtain ⟨a, ha, hra⟩ := Option.map_eq_some'.mp hsome2
    subst hra
    refine ⟨?_, ?_, ?_⟩
    · intro h1 h2
      simp only [mkReportRow] at h1 h2 ⊢
      simp [h1, h2]
    · intro h1 h2
      simp only [mkReportRow] at h1 h2 ⊢
      simp [h1, h2]
    · intro h1
      rcases h1 with h1 | h1 <;>
        (simp only [mkReportRow] at h1 ⊢; simp [h1])
  · exact absurd hsome (by simp)

/-- Applied nudge_up treatment on post 10, created at time 1. -/
def tUp5 : Treatment :=
  { id := 1, experimentName := "exp", experimentMode := "A", runId := none,
    postId := 10, isWorldPost := false, treatment := Arm.nudge_up,
    nudgeDelayMinutes := some 0, nudgeAppliedAt := some 4,
    nudgeVoteId := some 7, createdAt := 1 }

/-- Applied nudge_down treatment on post 20, created at time 2. -/
def tDown5 : Treatment :=
  { id := 2, experimentName := "exp", experimentMode := "A", runId := none,
    postId := 20, isWorldPost := false, treatment := Arm.nudge_down,
    nudgeDelayMinutes := some 0, nudgeAppliedAt := some 5,
    nudgeVoteId := some 8, createdAt := 2 }

/-- Post 10 with raw score 5. -/
def p10 : Post :=
  { id := 10, authorId := 5, title := "a", score := 5, commentCount := 0,
    createdAt := 0 }

/-- Post 20 with raw score 5. -/
def p20 : Post :=
  { id := 20, authorId := 5, title := "b", score := 5, commentCount := 0,
    createdAt := 0 }

/-- The common author of both posts. -/
def ag5 : Agent := { id := 5, name := "alice" }

/-- Database with both applied treatments and their posts. -/
def db5 : Db :=
  { treatments := [tUp5, tDown5], posts := [p10, p20], agents := [ag5],
    votes := [], activity := [] }

/-- The report row for the applied nudge_up on raw score 5. -/
def rowUp5 : ReportRow := mkReportRow 99 [] [] tUp5 p10 ag5

/-- The report row for the applied nudge_down on raw score 5. -/
def rowDown5 : ReportRow := mkReportRow 99 [] [] tDown5 p20 ag5

/-- Witness for C6: raw score 5 with an applied nudge_up reports adjusted
score 4, and raw score 5 with an applied nudge_down reports 6. -/
theorem getResults_adjusted_score_witness :
    rowUp5.finalScore = 5 ∧ rowUp5.adjustedScore = 4 ∧
    rowDown5.finalScore = 5 ∧ rowDown5.adjustedScore = 6 ∧
    rowUp5.adjustedScore = rowUp5.finalScore - 1 ∧
    rowDown5.adjustedScore = rowDown5.finalScore + 1 := by
  have hu := getResults_adjusted_score 99 db5 "exp" rowUp5 (by decide)
  have hd := getResults_adjusted_score 99 db5 "exp" rowDown5 (by decide)
  exact ⟨by decide, by decide, by decide, by decide,
    hu.1 (by decide) (by decide), hd.2.1 (by decide) (by decide)⟩

/-- The interval loop, entered armed and running on a nonempty queue with
fuel equal to the queue length, publishes item `i` of the queue at tick
`k + i` (time `(k + i) * T`), drains the queue, and ends stopped with the
repeating timer cleared. -/
theorem runTicks_spec {α : Type} (T : Nat) (x : α) (q : List α) (pub k : Nat) :
    runTicks T (x :: q).length
      { queue := x :: q, published := pub, timerArmed := true, running := true } k
      = ({ queue := [], published := pub + (x :: q).length, timerArmed := false,
           running := false },
         publicationSchedule (x :: q) k T) := by
  induction q generalizing x pub k with
  | nil => rfl
  | cons y ys ih =>
      show (let s1 : SchedState α :=
              { queue := y :: ys, published := pub + 1, timerArmed := true,
                running := true }
            let s2 := if s1.queue.isEmpty then stopSched s1 else s1
            let res := runTicks T (y :: ys).length s2 (k + 1)
            (res.1, (x, k * T) :: res.2)) = _
      simp only [List.isEmpty_cons, Bool.false_eq_true, if_false]
      rw [ih y (pub + 1) (k + 1)]
      simp only [Prod.mk.injEq, SchedState.mk.injEq, publicationSchedule,
        List.length_cons, and_true, true_and, List.cons.injEq]
      omega

/-- Claim C7 (corrected): a full scheduler run publishes item `i` (0-based)
at time `i * T` — the first immediately at start, before the interval timer
is armed, each subsequent one a fixed interval later.  For a queue of two or
more items, once the queue empties the repeating timer is cancelled and
status reports `running = false` with `remaining = 0`.  For a one-item
queue, however, the interval timer is never armed and `stop()` is never
called: after the immediate publish the status reports `remaining = 0` but
`running = true`. -/
theorem scheduler_run_spec {α : Type} (items : List α) (T : Nat) :
    (runSched items T).2 = publicationSchedule items 0 T ∧
    (∀ x y rest, items = x :: y :: rest →
      (runSched items T).1.running = false ∧
      (runSched items T).1.timerArmed = false ∧
      (runSched items T).1.queue.length = 0 ∧
      (runSched items T).1.published = items.length) ∧
    (∀ x, items = [x] →
      (runSched items T).1.running = true ∧
      (runSched items T).1.timerArmed = false ∧
      (runSched items T).1.queue.length = 0 ∧
      (runSched items T).1.published = 1) := by
  cases items with
  | nil =>
      refine ⟨rfl, ?_, ?_⟩
      · intro x y rest h
        exact List.noConfusion h
      · intro x h
        exact List.noConfusion h
  | cons x tl =>
      cases tl with
      | nil =>
          refine ⟨by simp [runSched, startSched, runTicks, publicationSchedule], ?_, ?_⟩
          · intro a b r2 h
            injection h with h1 h2
            exact List.noConfusion h2
          · intro a h
            exact ⟨rfl, rfl, rfl, rfl⟩
      | cons y rest =>
          have hrun : runSched (x :: y :: rest) T
              = (({ queue := [], published := 1 + (y :: rest).length,
                    timerArmed := false, running := false } : SchedState α),
                 (x, 0) :: publicationSchedule (y :: rest) 1 T) := by
            show (let r0 := startSched (x :: y :: rest)
                  let r1 := runTicks T r0.1.queue.length r0.1 1
                  (r1.1, r0.2 ++ r1.2)) = _
            simp only [startSched, List.isEmpty_cons, Bool.false_eq_true,
              if_false]
            rw [runTicks_spec T y rest 1 1]
            rfl
          refine ⟨?_, ?_, ?_⟩
          · rw [hrun]
            simp [publicationSchedule]
          · intro a b r2 heq
            rw [hrun]
            refine ⟨rfl, rfl, rfl, ?_⟩
            simp only [List.length_cons]
            omega
          · intro a heq
            injection heq with h1 h2
            exact List.noConfusion h2

/-- Counterexample to claim C7 as stated: a loaded queue of ONE item drains
(`remaining = 0`) but the scheduler does not transition to the stopped
state — `running` is still `true` after the run, because `stop()` is only
ever called from inside the interval callback and no interval timer was
armed for a single-item queue. -/
theorem scheduler_singleton_queue_still_running :
    (runSched [Json.num 1] 100).1.queue.length = 0 ∧
    (runSched [Json.num 1] 100).1.running = true := by
  decide

/-- Witness for the corrected C7, at the spec's own example: a 3-item queue
with interval 100 publishes item 1 at 0, item 2 at +100, item 3 at +200,
then reports `remaining = 0`, `running = false`, timer cleared. -/
theorem scheduler_run_spec_witness :
    (runSched [Json.num 1, Json.num 2, Json.num 3] 100).2
      = [(Json.num 1, 0), (Json.num 2, 100), (Json.num 3, 200)] ∧
    (runSched [Json.num 1, Json.num 2, Json.num 3] 100).1.running = false ∧
    (runSched [Json.num 1, Json.num 2, Json.num 3] 100).1.timerArmed = false ∧
    (runSched [Json.num 1, Json.num 2, Json.num 3] 100).1.queue.length = 0 := by
  have h := scheduler_run_spec [Json.num 1, Json.num 2, Json.num 3] 100
  have h2 := h.2.1 (Json.num 1) (Json.num 2) [Json.num 3] rfl
  refine ⟨?_, h2.1, h2.2.1, h2.2.2.1⟩
  rw [h.1]
  rfl

/-- The composed map/`getD`/truthiness-filter pipeline of `load` equals a
single filterMap: a line survives iff it parses and its value is truthy —
malformed lines and falsy-but-valid lines are both dropped. -/
theorem queue_filterMap_eq (parse : String → Option Json) (ls : List String) :
    ((ls.map parse).map (fun o => o.getD Json.null)).filter jsTruthy
      = ls.filterMap (fun l =>
          match parse l with
          | some v => if jsTruthy v then some v else none
          | none => none) := by
  induction ls with
  | nil => rfl
  | cons x xs ih =>
      simp only [List.map_cons, List.filter_cons, List.filterMap_cons]
      cases hx : parse x with
      | none =>
          simp only [Option.getD_none, jsTruthy, Bool.false_eq_true, if_false]
          exact ih
      | some v =>
          simp only [Option.getD_some]
          by_cases hv : jsTruthy v = true
          · simp only [hv, if_true, ih]
          · simp only [Bool.not_eq_true] at hv
            simp only [hv, Bool.false_eq_true, if_false, ih]

/-- Warnings are emitted exactly for the kept lines whose parse raised. -/
theorem warnings_count_eq (parse : String → Option Json) (ls : List String) :
    ((ls.map parse).filter Option.isNone).length
      = (ls.filter (fun l => (parse l).isNone)).length := by
  induction ls with
  | nil => rfl
  | cons x xs ih =>
      simp only [List.map_cons, List.filter_cons]
      by_cases hx : (parse x).isNone = true
      · simp only [hx, if_true, List.length_cons, ih]
      · simp only [Bool.not_eq_true] at hx
        simp only [hx, Bool.false_eq_true, if_false, ih]

/-- A concrete `JSON.parse` table for the five-line demo source. -/
def demoParse : String → Option Json := fun s =>
  if s = "0" then some (Json.num 0)
  else if s = "false" then some (Json.bool false)
  else if s = "null" then some Json.null
  else if s = "1" then some (Json.num 1)
  else none

/-- Five lines: four valid-JSON lines (three of them falsy) and one
whitespace-only line. -/
def demoContent : String := "0\nfalse\nnull\n  \n1"

/-- Claim C10 (confirmed): during load, a blank/whitespace-only line never
reaches the parser; a line that parses to a falsy JSON value (null, false,
0, the empty string) is dropped from the queue with no warning, alongside
malformed lines which are dropped with a warning; only truthy values are
enqueued.  Hence the loaded count can be smaller than the line count even
when every non-blank line is valid JSON: the demo source has 5 lines, 4
kept non-blank lines, all parsing successfully (0 warnings), yet loads a
queue of exactly 1 item. -/
theorem loadQueue_drops_falsy (parse : String → Option Json)
    (content : String) :
    (loadQueue parse content).1
      = ((splitLines content).filter (fun l => jsTrim l != "")).filterMap
          (fun l =>
            match parse l with
            | some v => if jsTruthy v then some v else none
            | none => none) ∧
    (loadQueue parse content).2
      = (((splitLines content).filter (fun l => jsTrim l != "")).filter
          (fun l => (parse l).isNone)).length ∧
    (loadQueue parse content).1.all jsTruthy = true ∧
    (splitLines demoContent).length = 5 ∧
    ((splitLines demoContent).filter (fun l => jsTrim l != "")).length = 4 ∧
    ((splitLines demoContent).filter (fun l => jsTrim l != "")).all
      (fun l => (demoParse l).isSome) = true ∧
    (loadQueue demoParse demoContent).2 = 0 ∧
    (loadQueue demoParse demoContent).1 = [Json.num 1] := by
  refine ⟨queue_filterMap_eq parse _, warnings_count_eq parse _, ?_,
    by decide, by decide, by decide, by decide, rfl⟩
  rw [List.all_eq_true]
  intro v hv
  exact (List.mem_filter.mp hv).2
